import Mathlib

/-!
Verification of the workflow-builder / template-interpolation frontend
(static/main.js).  Pure fragments of the JavaScript are embedded as
executable Lean definitions; strings are modelled as lists of
characters where convenient.

Notation used throughout: a literal open brace inside a Lean string is
written with the escape \x7b and a close brace with \x7d, so the string
"\x7b\x7binput\x7d\x7d" is the seven-character JavaScript literal for a
double-braced input placeholder.
-/

namespace AIFW

/-- The open-brace character. -/
def lb : Char := Char.ofNat 123

/-- The close-brace character. -/
def rb : Char := Char.ofNat 125

/-- JavaScript regular-expression class \s (ECMA-262 WhiteSpace and
LineTerminator code points). -/
def jsWs (c : Char) : Bool :=
  let n := c.toNat
  (9 ≤ n && n ≤ 13) || n = 32 || n = 0xa0 || n = 0x1680 ||
  (0x2000 ≤ n && n ≤ 0x200a) || n = 0x2028 || n = 0x2029 ||
  n = 0x202f || n = 0x205f || n = 0x3000 || n = 0xfeff

/-- JavaScript regular-expression class \d. -/
def jsDigit (c : Char) : Bool :=
  48 ≤ c.toNat && c.toNat ≤ 57

/-- JavaScript regular-expression class \w. -/
def jsWord (c : Char) : Bool :=
  let n := c.toNat
  (97 ≤ n && n ≤ 122) || (65 ≤ n && n ≤ 90) || (48 ≤ n && n ≤ 57) || n = 95

/-- ECMA-262 LineTerminator code points (the characters that the dot
atom does not match). -/
def jsLineTerm (c : Char) : Bool :=
  let n := c.toNat
  n = 10 || n = 13 || n = 0x2028 || n = 0x2029

/-- Abstract syntax of the fragment of JavaScript regular expressions
reachable from the patterns the program builds
(the template literal wrapping a user-supplied variable name between
double braces with \s* on each side).  Character classes carry their
membership predicate; a group node forgets capturing (the substitution
logic of the program never refers to numbered captures,
see getSubstitution below). -/
inductive RAtom where
  | lit (c : Char)
  | cls (p : Char → Bool)
  | anyc
  | star (a : RAtom)
  | plus (a : RAtom)
  | opt (a : RAtom)
  | group (a : RAtom)
  | seq (a b : RAtom)
  | eps

/-- Chain a read sequence of atoms into one atom. -/
def seqList (l : List RAtom) : RAtom :=
  l.foldr .seq .eps

/-- Greedy repetition of a body matcher; a repetition step that
consumes no input ends the loop, as in ECMA-262.  The fuel is
structural; the callers pass one more than the length of the input,
which covers every repetition the input can sustain since each kept
step consumes at least one character. -/
def starLoop (f : List Char → List (List Char)) : Nat → List Char → List (List Char)
  | 0, s => [s]
  | fuel + 1, s =>
      ((f s).filter (fun r => r.length < s.length)).flatMap
        (starLoop f fuel) ++ [s]

/-- All ways one atom can match a prefix of the input, as the list of
possible remainders in the backtracking priority order of the ECMA-262
matcher (greedy quantifiers: longest continuation first). -/
def matchAtom : RAtom → List Char → List (List Char)
  | .lit _, [] => []
  | .lit c, x :: xs => if x = c then [xs] else []
  | .cls _, [] => []
  | .cls p, x :: xs => if p x then [xs] else []
  | .anyc, [] => []
  | .anyc, x :: xs => if jsLineTerm x then [] else [xs]
  | .star a, s => starLoop (matchAtom a) (s.length + 1) s
  | .plus a, s =>
      (matchAtom a s).flatMap fun r => starLoop (matchAtom a) (r.length + 1) r
  | .opt a, s => matchAtom a s ++ [s]
  | .group a, s => matchAtom a s
  | .seq a b, s => (matchAtom a s).flatMap (matchAtom b)
  | .eps, s => [s]

/-- All ways a sequence of atoms can match a prefix of the input, in
backtracking priority order. -/
def matchSeq : List RAtom → List Char → List (List Char)
  | [], s => [s]
  | a :: as, s => (matchAtom a s).flatMap (matchSeq as)

/-- The first (highest-priority) match of a sequence of atoms at the
start of the input: the remainder of the input after the matched
prefix, or none. -/
def matchFirst (l : List RAtom) (s : List Char) : Option (List Char) :=
  (matchSeq l s).head?

/-- Is an atom already quantified (a further quantifier is a
"nothing to repeat" syntax error)? -/
def isQuant : RAtom → Bool
  | .star _ => true
  | .plus _ => true
  | .opt _ => true
  | _ => false

/-- Apply a postfix quantifier character to an atom. -/
def applyQuant (c : Char) (a : RAtom) : RAtom :=
  if c = '*' then .star a else if c = '+' then .plus a else .opt a

/-- Read a decimal digit run. -/
def readDigits : List Char → Option Nat → (Option Nat × List Char)
  | [], acc => (acc, [])
  | c :: cs, acc =>
      if jsDigit c then
        readDigits cs (some ((acc.getD 0) * 10 + (c.toNat - 48)))
      else (acc, c :: cs)

/-- Try to read a braced counted quantifier (digits, optional comma and
digits, closing brace) after an open brace; returns the bounds and the
rest.  When the brace does not form a counted quantifier it is a
literal character (Annex B of ECMA-262). -/
def readBraceQuant (cs : List Char) : Option (Nat × Option Nat × List Char) :=
  match readDigits cs none with
  | (none, _) => none
  | (some lo, rest) =>
      match rest with
      | c :: rest' =>
          if c = rb then some (lo, some lo, rest')
          else if c = ',' then
            match readDigits rest' none with
            | (hi, c' :: rest'') =>
                if c' = rb then some (lo, hi, rest'') else none
            | _ => none
          else none
      | [] => none

/-- Desugar a counted quantifier into the core atoms (greedy). -/
def braceQuantAtom (lo : Nat) (hi : Option Nat) (a : RAtom) : RAtom :=
  match hi with
  | none => .group (seqList (List.replicate lo a ++ [.star a]))
  | some h =>
      .group (seqList (List.replicate lo a ++ List.replicate (h - lo) (.opt a)))

/-- Recursive-descent reading of the modelled regular-expression
subset: literals, escapes (classes \s \S \d \D \w \W, identity escapes),
dot, groups, greedy quantifiers, Annex B literal braces.  Returns the
atoms in reverse in the accumulator style of the loop, together with
the unread rest (reading stops at a close parenthesis, which the group
reader consumes).  none is a syntax error, or a construct outside the
modelled subset (classes, alternation, anchors, assertions,
backreferences) -- none of which the program's placeholder patterns
produce for the variable names considered in this development. -/
def parseSeq : Nat → List Char → List RAtom → Option (List RAtom × List Char)
  | 0, _, _ => none
  | _ + 1, [], acc => some (acc.reverse, [])
  | fuel + 1, c :: cs, acc =>
      if c = ')' then some (acc.reverse, c :: cs)
      else if c = '(' then
        let inner : Option (List Char) :=
          match cs with
          | '?' :: ':' :: cs' => some cs'
          | '?' :: _ => none
          | _ => some cs
        match inner with
        | none => none
        | some cs' =>
            match parseSeq fuel cs' [] with
            | none => none
            | some (atoms, rest) =>
                match rest with
                | ')' :: rest' => parseSeq fuel rest' (.group (seqList atoms) :: acc)
                | _ => none
      else if c = '\\' then
        match cs with
        | [] => none
        | e :: cs' =>
            if e = 's' then parseSeq fuel cs' (.cls jsWs :: acc)
            else if e = 'S' then parseSeq fuel cs' (.cls (fun x => !jsWs x) :: acc)
            else if e = 'd' then parseSeq fuel cs' (.cls jsDigit :: acc)
            else if e = 'D' then parseSeq fuel cs' (.cls (fun x => !jsDigit x) :: acc)
            else if e = 'w' then parseSeq fuel cs' (.cls jsWord :: acc)
            else if e = 'W' then parseSeq fuel cs' (.cls (fun x => !jsWord x) :: acc)
            else if e = 'b' ∨ e = 'B' ∨ jsDigit e then none
            else parseSeq fuel cs' (.lit e :: acc)
      else if c = '*' ∨ c = '+' ∨ c = '?' then
        match acc with
        | [] => none
        | a :: acc' =>
            if isQuant a then none
            else parseSeq fuel cs (applyQuant c a :: acc')
      else if c = lb then
        match readBraceQuant cs with
        | none => parseSeq fuel cs (.lit lb :: acc)
        | some (lo, hi, rest) =>
            match acc with
            | [] => none
            | a :: acc' =>
                if isQuant a then none
                else parseSeq fuel rest (braceQuantAtom lo hi a :: acc')
      else if c = '[' ∨ c = '|' ∨ c = '^' ∨ c = '$' then none
      else if c = '.' then parseSeq fuel cs (.anyc :: acc)
      else parseSeq fuel cs (.lit c :: acc)

/-- Compile a whole pattern string (as characters): the read must
consume everything; a leftover close parenthesis is the unmatched-
parenthesis syntax error. -/
def parsePattern (s : List Char) : Option (List RAtom) :=
  match parseSeq (s.length + 1) s [] with
  | some (atoms, []) => some atoms
  | _ => none

/-- ECMA-262 GetSubstitution for String.prototype.replace, restricted
to patterns without capture groups (the program's placeholder patterns
for the variable names considered here have none): the escapes are
dollar-dollar, dollar-ampersand (the matched text), dollar-backquote
(the text before the match) and dollar-quote (the text after the
match); any other dollar sequence is kept literally. -/
def getSubstitution : List Char → List Char → List Char → List Char → List Char
  | [], _, _, _ => []
  | c :: r, matched, before, after =>
      if c = '$' then
        match r with
        | [] => ['$']
        | d :: r2 =>
            if d = '$' then '$' :: getSubstitution r2 matched before after
            else if d = '&' then matched ++ getSubstitution r2 matched before after
            else if d = Char.ofNat 96 then
              before ++ getSubstitution r2 matched before after
            else if d = Char.ofNat 39 then
              after ++ getSubstitution r2 matched before after
            else '$' :: getSubstitution (d :: r2) matched before after
      else c :: getSubstitution r matched before after

/-- One step of the global-flag replace scan of
String.prototype.replace: at each position try the pattern; on a match
emit the substitution and continue after the matched text (advancing
one character when the match is empty), otherwise copy one character.
The accumulated text before the current position is carried for the
dollar-backquote escape. -/
def replaceScan : Nat → List RAtom → List Char → List Char → List Char → List Char
  | 0, _, _, _, s => s
  | _ + 1, _, _, _, [] => []
  | fuel + 1, ast, repl, before, c :: cs =>
      match matchFirst ast (c :: cs) with
      | none => c :: replaceScan fuel ast repl (before ++ [c]) cs
      | some rest =>
          let s := c :: cs
          let matched := s.take (s.length - rest.length)
          if rest.length = s.length then
            getSubstitution repl matched before rest ++
              c :: replaceScan fuel ast repl (before ++ [c]) cs
          else
            getSubstitution repl matched before rest ++
              replaceScan fuel ast repl (before ++ matched) rest

/-- JavaScript rendered.replace(re, value) with the global flag. -/
def jsReplaceAll (ast : List RAtom) (repl s : List Char) : List Char :=
  replaceScan (s.length + 1) ast repl [] s

/-- The pattern string the program builds for a variable name: the
template literal wrapping the raw key between double braces, with the
whitespace class star on each side. -/
def patternChars (key : List Char) : List Char :=
  lb :: lb :: '\\' :: 's' :: '*' ::
    (key ++ '\\' :: 's' :: '*' :: rb :: rb :: [])

/-- One iteration of the Object.entries loop of
updatePromptTemplatePreview: build the RegExp from the key (none is
the SyntaxError the enclosing try/catch turns into the error preview)
and apply the global replace with the bound value. -/
def replaceVar (rendered : List Char) (key value : List Char) :
    Option (List Char) :=
  (parsePattern (patternChars key)).map fun ast => jsReplaceAll ast value rendered

/-- The rendering loop of updatePromptTemplatePreview: fold the
variable bindings in entry order over the template, replacing each
double-braced occurrence of the key by the bound value through the
built RegExp.  none models the thrown RegExp SyntaxError, which the
surrounding try/catch reports instead of a rendered preview. -/
def renderTemplate (tmpl : String) (vars : List (String × String)) :
    Option String :=
  (vars.foldl (fun acc kv => acc.bind fun r => replaceVar r kv.1.data kv.2.data)
      (some tmpl.data)).map String.mk

/-- A variable name made only of word characters: the regular
expression built from such a name matches it literally. -/
def plainKey (k : List Char) : Bool :=
  !k.isEmpty && k.all jsWord

/-- A replacement value with no dollar character is inserted verbatim
by GetSubstitution. -/
def dollarFree (v : List Char) : Bool :=
  v.all (fun c => c ≠ '$')

/-- Specification-side matcher, from the spec's words: a double-braced
occurrence of the name, whitespace-tolerant inside the braces, matched
literally at the head of the input; returns the remainder after the
occurrence. -/
def litMatchWS (k s : List Char) : Option (List Char) :=
  match s with
  | c1 :: c2 :: rest =>
      if c1 = lb && c2 = lb then
        let r1 := rest.dropWhile (fun c => jsWs c)
        if k.isPrefixOf r1 then
          match (r1.drop k.length).dropWhile (fun c => jsWs c) with
          | d1 :: d2 :: r3 =>
              if d1 = rb && d2 = rb then some r3 else none
          | _ => none
        else none
      else none
  | _ => none

/-- Specification-side renderer, from the spec's words: scan the
template left to right and replace every double-braced occurrence of
the name by the value; the substituted value is emitted verbatim and
never re-scanned. -/
def literalReplace (k v : List Char) : Nat → List Char → List Char
  | 0, s => s
  | _ + 1, [] => []
  | fuel + 1, c :: cs =>
      match litMatchWS k (c :: cs) with
      | some rest => v ++ literalReplace k v fuel rest
      | none => c :: literalReplace k v fuel cs

/-- Specification-side rendering of one binding over a whole template. -/
def literalRender (k v s : List Char) : List Char :=
  literalReplace k v (s.length + 1) s

/-- Does the template contain a double-braced occurrence of the name
(whitespace-tolerant)? -/
def hasPlaceholder (k : List Char) : List Char → Bool
  | [] => false
  | c :: cs => (litMatchWS k (c :: cs)).isSome || hasPlaceholder k cs

/-! ### The workflow builder (Agent Orchestrator UI) -/

/-- The type-specific node configuration object; absent JavaScript
properties are none. -/
structure NodeConfig where
  model : Option String := none
  system_prompt : Option String := none
  prompt_template : Option String := none
  tool_id : Option String := none
  input_template : Option String := none
  expression : Option String := none
deriving DecidableEq

/-- A workflow node as the builder creates it. -/
structure WNode where
  id : String
  type : String
  label : String
  config : NodeConfig
  x : Nat
  y : Nat
deriving DecidableEq

/-- A workflow edge; condition is null for a default edge. -/
structure WEdge where
  source : String
  target : String
  condition : Option String
deriving DecidableEq

/-- The module-scope mutable state of the builder. -/
structure BuilderState where
  workflowNodes : List WNode
  workflowEdges : List WEdge
  selectedNodeId : Option String
  nodeIdCounter : Nat
deriving DecidableEq

/-- JavaScript String.prototype.trim: strip the WhiteSpace and
LineTerminator code points from both ends. -/
def jsTrim (s : String) : String :=
  String.mk
    ((s.data.dropWhile fun c => jsWs c).reverse.dropWhile
        fun c => jsWs c).reverse

/-- The labels table of addNode, with its fallback to the raw type. -/
def labelFor (t : String) : String :=
  if t = "start" then "Start"
  else if t = "agent" then "Agent Call"
  else if t = "tool" then "Tool Call"
  else if t = "condition" then "Condition"
  else if t = "end" then "End"
  else t

/-- The default config block of addNode. -/
def defaultConfig (t : String) : NodeConfig :=
  if t = "agent" then
    { model := some "", system_prompt := some "",
      prompt_template := some "\x7b\x7binput\x7d\x7d" }
  else if t = "tool" then
    { tool_id := some "", input_template := some "\x7b\x7bprev_output\x7d\x7d" }
  else if t = "condition" then { expression := some "contains:yes" }
  else {}

/-- The id string addNode generates from the counter. -/
def mkNodeId (n : Nat) : String :=
  "node_" ++ toString n

/-- addNode: push a node with the generated id, the per-type label and
default config, advance the counter, and select the new node. -/
def addNode (st : BuilderState) (t : String) : BuilderState :=
  let id := mkNodeId st.nodeIdCounter
  let node : WNode :=
    { id := id, type := t, label := labelFor t, config := defaultConfig t,
      x := 50 + (st.workflowNodes.length % 3) * 200,
      y := 50 + (st.workflowNodes.length / 3) * 120 }
  { workflowNodes := st.workflowNodes ++ [node],
    workflowEdges := st.workflowEdges,
    selectedNodeId := some id,
    nodeIdCounter := st.nodeIdCounter + 1 }

/-- addEdge, with the target id and condition text read from the DOM
inputs: bail out on an empty target or no selection, reject a
duplicate source/target pair, otherwise push the edge (an empty
trimmed condition becomes null). -/
def addEdge (st : BuilderState) (targetId conditionField : String) :
    BuilderState :=
  if targetId = "" then st
  else
    match st.selectedNodeId with
    | none => st
    | some sel =>
        if st.workflowEdges.any fun e => e.source = sel && e.target = targetId then
          st
        else
          { st with
            workflowEdges := st.workflowEdges ++
              [{ source := sel, target := targetId,
                 condition :=
                   if jsTrim conditionField = "" then none
                   else some (jsTrim conditionField) }] }

/-- deleteSelectedNode: behind the confirm dialog, drop every node
with the selected id and every edge touching it, and clear the
selection. -/
def deleteSelectedNode (st : BuilderState) (confirmDelete : Bool) :
    BuilderState :=
  match st.selectedNodeId with
  | none => st
  | some sel =>
      if !confirmDelete then st
      else
        { workflowNodes := st.workflowNodes.filter fun n => n.id ≠ sel,
          workflowEdges :=
            st.workflowEdges.filter fun e => e.source ≠ sel && e.target ≠ sel,
          selectedNodeId := none,
          nodeIdCounter := st.nodeIdCounter }

/-- JavaScript value || default on string field values. -/
def jsOr (v d : String) : String :=
  if v = "" then d else v

/-- The per-type field updates of updateNodeFromEditor applied to the
found node, from the editor field values. -/
def updateConfig (n : WNode)
    (label mval sval pval tidval tival cval : String) : WNode :=
  let base := { n with label := label }
  if n.type = "agent" then
    { base with
      config :=
        { base.config with
          model := some (jsOr mval ""),
          system_prompt := some (jsOr sval ""),
          prompt_template := some (jsOr pval "\x7b\x7binput\x7d\x7d") } }
  else if n.type = "tool" then
    { base with
      config :=
        { base.config with
          tool_id := some (jsOr tidval ""),
          input_template := some (jsOr tival "\x7b\x7bprev_output\x7d\x7d") } }
  else if n.type = "condition" then
    { base with config := { base.config with expression := some (jsOr cval "") } }
  else base

/-- Replace the first node carrying the id, as the Array.prototype.find
mutation does. -/
def replaceFirst (nodes : List WNode) (sel : String) (f : WNode → WNode) :
    List WNode :=
  match nodes with
  | [] => []
  | n :: rest => if n.id = sel then f n :: rest else n :: replaceFirst rest sel f

/-- updateNodeFromEditor: update the first node with the selected id
from the editor fields; no selected or found node means no change. -/
def updateNodeFromEditor (st : BuilderState)
    (label mval sval pval tidval tival cval : String) : BuilderState :=
  match st.selectedNodeId with
  | none => st
  | some sel =>
      if (st.workflowNodes.find? fun n => n.id = sel).isSome then
        { st with
          workflowNodes := replaceFirst st.workflowNodes sel fun n =>
            updateConfig n label mval sval pval tidval tival cval }
      else st

/-- The body a successful save sends. -/
structure WorkflowPayload where
  name : String
  description : String
  nodes : List WNode
  edges : List WEdge
deriving DecidableEq

/-- What saveWorkflow decides before any network activity: a
validation message with no request, or an issued request. -/
inductive SaveOutcome where
  | error (msg : String)
  | request (method : String) (payload : WorkflowPayload)
deriving DecidableEq

/-- The pure decision core of saveWorkflow: trim name and description,
require a nonempty name and a nonempty node list, then issue the
create-or-update request with exactly the four payload fields. -/
def saveWorkflow (idField nameField descField : String)
    (nodes : List WNode) (edges : List WEdge) : SaveOutcome :=
  let name := jsTrim nameField
  let description := jsTrim descField
  if name = "" then .error "Name is required"
  else if nodes.length = 0 then .error "Add at least one node"
  else
    .request (if idField ≠ "" then "PUT" else "POST")
      { name := name, description := description, nodes := nodes, edges := edges }

/-! ### JSON.parse, for the run-input check of runWorkflow -/

/-- JSON values; numbers keep their source lexeme. -/
inductive Json where
  | null
  | bool (b : Bool)
  | num (lexeme : String)
  | str (s : String)
  | arr (items : List Json)
  | obj (fields : List (String × Json))

/-- The whitespace JSON.parse skips between tokens. -/
def jsonWs (c : Char) : Bool :=
  c = ' ' || c = '\t' || c = '\n' || c = '\r'

/-- Skip JSON whitespace. -/
def skipWs (s : List Char) : List Char :=
  s.dropWhile fun c => jsonWs c

/-- Hex digit value. -/
def hexVal (c : Char) : Option Nat :=
  if jsDigit c then some (c.toNat - 48)
  else if 97 ≤ c.toNat ∧ c.toNat ≤ 102 then some (c.toNat - 87)
  else if 65 ≤ c.toNat ∧ c.toNat ≤ 70 then some (c.toNat - 55)
  else none

/-- The body of a JSON string after the opening quote: plain
characters above U+001F, the short escapes, and 4-hex-digit unicode
escapes; returns the decoded string and the rest after the closing
quote. -/
def parseStringBody : List Char → List Char → Option (String × List Char)
  | [], _ => none
  | c :: cs, acc =>
      if c = '"' then some (String.mk acc.reverse, cs)
      else if c = '\\' then
        match cs with
        | [] => none
        | e :: cs' =>
            if e = '"' ∨ e = '\\' ∨ e = '/' then parseStringBody cs' (e :: acc)
            else if e = 'b' then parseStringBody cs' (Char.ofNat 8 :: acc)
            else if e = 'f' then parseStringBody cs' (Char.ofNat 12 :: acc)
            else if e = 'n' then parseStringBody cs' ('\n' :: acc)
            else if e = 'r' then parseStringBody cs' ('\r' :: acc)
            else if e = 't' then parseStringBody cs' ('\t' :: acc)
            else if e = 'u' then
              match cs' with
              | h1 :: h2 :: h3 :: h4 :: cs'' =>
                  match hexVal h1, hexVal h2, hexVal h3, hexVal h4 with
                  | some a, some b, some c2, some d =>
                      parseStringBody cs''
                        (Char.ofNat (((a * 16 + b) * 16 + c2) * 16 + d) :: acc)
                  | _, _, _, _ => none
              | _ => none
            else none
      else if c.toNat < 32 then none
      else parseStringBody cs (c :: acc)

/-- The JSON number grammar, keeping the lexeme. -/
def parseNumberLex (s : List Char) : Option (List Char × List Char) :=
  let negAndRest : List Char × List Char :=
    match s with
    | '-' :: r => (['-'], r)
    | _ => ([], s)
  let neg := negAndRest.1
  let s1 := negAndRest.2
  let intAndRest : Option (List Char × List Char) :=
    match s1 with
    | '0' :: r => some (['0'], r)
    | c :: _ =>
        if jsDigit c then some (s1.span fun x => jsDigit x) else none
    | [] => none
  match intAndRest with
  | none => none
  | some (ip, r1) =>
      let fracAndRest : Option (List Char × List Char) :=
        match r1 with
        | '.' :: r2 =>
            match r2.span (fun x => jsDigit x) with
            | ([], _) => none
            | (ds, r3) => some ('.' :: ds, r3)
        | _ => some ([], r1)
      match fracAndRest with
      | none => none
      | some (fp, r3) =>
          let expAndRest : Option (List Char × List Char) :=
            match r3 with
            | e :: r4 =>
                if e = 'e' ∨ e = 'E' then
                  let signAndRest : List Char × List Char :=
                    match r4 with
                    | c :: r5 => if c = '+' ∨ c = '-' then ([c], r5) else ([], r4)
                    | [] => ([], r4)
                  match signAndRest.2.span (fun x => jsDigit x) with
                  | ([], _) => none
                  | (ds, r6) => some (e :: signAndRest.1 ++ ds, r6)
                else some ([], r3)
            | [] => some ([], r3)
          match expAndRest with
          | none => none
          | some (ep, rest) => some (neg ++ ip ++ fp ++ ep, rest)

/-- The comma-separated items of a nonempty array, given the value
reader; consumes the closing bracket. -/
def jsonItemsLoop (pv : List Char → Option (Json × List Char)) :
    Nat → List Char → Option (List Json × List Char)
  | 0, _ => none
  | fuel + 1, s =>
      match pv s with
      | none => none
      | some (v, r) =>
          match skipWs r with
          | ',' :: r' =>
              match jsonItemsLoop pv fuel r' with
              | none => none
              | some (vs, rr) => some (v :: vs, rr)
          | ']' :: r' => some ([v], r')
          | _ => none

/-- The comma-separated members of a nonempty object, given the value
reader; consumes the closing brace. -/
def jsonMembersLoop (pv : List Char → Option (Json × List Char)) :
    Nat → List Char → Option (List (String × Json) × List Char)
  | 0, _ => none
  | fuel + 1, s =>
      match skipWs s with
      | '"' :: cs =>
          match parseStringBody cs [] with
          | none => none
          | some (k, r) =>
              match skipWs r with
              | ':' :: r2 =>
                  match pv r2 with
                  | none => none
                  | some (v, r3) =>
                      match skipWs r3 with
                      | ',' :: r5 =>
                          match jsonMembersLoop pv fuel r5 with
                          | none => none
                          | some (rest, rr) => some ((k, v) :: rest, rr)
                      | c :: r5 =>
                          if c = rb then some ([(k, v)], r5) else none
                      | [] => none
              | _ => none
      | _ => none

/-- A JSON value with leading whitespace, returning the rest. -/
def parseJsonVal : Nat → List Char → Option (Json × List Char)
  | 0, _ => none
  | fuel + 1, s =>
      match skipWs s with
      | [] => none
      | c :: cs =>
          if c = '"' then
            match parseStringBody cs [] with
            | none => none
            | some (str, r) => some (.str str, r)
          else if c = lb then
            match skipWs cs with
            | c2 :: r =>
                if c2 = rb then some (.obj [], r)
                else
                  match jsonMembersLoop (parseJsonVal fuel) (fuel + 1) cs with
                  | none => none
                  | some (fields, rest) => some (.obj fields, rest)
            | [] => none
          else if c = '[' then
            match skipWs cs with
            | ']' :: r => some (.arr [], r)
            | _ =>
                match jsonItemsLoop (parseJsonVal fuel) (fuel + 1) cs with
                | none => none
                | some (items, rest) => some (.arr items, rest)
          else if "true".data.isPrefixOf (c :: cs) then
            some (.bool true, (c :: cs).drop 4)
          else if "false".data.isPrefixOf (c :: cs) then
            some (.bool false, (c :: cs).drop 5)
          else if "null".data.isPrefixOf (c :: cs) then
            some (.null, (c :: cs).drop 4)
          else
            match parseNumberLex (c :: cs) with
            | none => none
            | some (lex, rest) => some (.num (String.mk lex), rest)

/-- JSON.parse success: a single value covering the whole input. -/
def jsonParse (s : String) : Option Json :=
  match parseJsonVal (s.length + 1) s.data with
  | none => none
  | some (v, rest) => if skipWs rest = [] then some v else none

/-- What runWorkflow decides before any network activity. -/
inductive RunOutcome where
  | noRequest (msg : String)
  | request (workflow_id : Option Nat) (input_data : Json)

/-- Number(idString) for the canonical nonnegative decimal id strings
the backend assigns; none models NaN. -/
def jsNumber (s : String) : Option Nat :=
  if s.data ≠ [] ∧ s.data.all (fun c => jsDigit c) then
    some (s.data.foldl (fun a c => a * 10 + (c.toNat - 48)) 0)
  else none

/-- The pure decision core of runWorkflow: require a saved id, default
a blank (all-whitespace) input to the empty object, otherwise demand
that the trimmed input parses as JSON; on success issue the run
request whose body carries exactly the numeric workflow id and the
input data. -/
def runWorkflow (workflowIdField inputField : String) : RunOutcome :=
  if workflowIdField = "" then .noRequest "Save the workflow first"
  else
    let inputStr := jsTrim inputField
    if inputStr = "" then .request (jsNumber workflowIdField) (.obj [])
    else
      match jsonParse inputStr with
      | some v => .request (jsNumber workflowIdField) v
      | none => .noRequest "Invalid JSON input"

/-- The outcome of the workflow-graph validate operation. -/
inductive ValidationResult where
  | ok
  | invalid (msg : String)
deriving DecidableEq

/-- Modelled from the spec: the validate operation of the Workflow
Graph component (the backend run engine, which is not part of the
frontend source under verification).  Per the spec it checks, in
order: at least one node; exactly one start node; no node id
collisions; every edge endpoint resolving to an existing node id --
failing with a message naming the specific violation. -/
def validateWorkflow (nodes : List WNode) (edges : List WEdge) :
    ValidationResult :=
  if nodes.length = 0 then .invalid "workflow must have at least one node"
  else if (nodes.filter fun n => n.type = "start").length ≠ 1 then
    .invalid "workflow must have exactly one start node"
  else if ¬ (nodes.map fun n => n.id).Nodup then
    .invalid "duplicate node id"
  else if
      edges.all fun e =>
        (nodes.any fun n => n.id = e.source) &&
          (nodes.any fun n => n.id = e.target) then
    .ok
  else .invalid "edge references unknown node"

/-- The compiled atoms of the placeholder pattern for a plain
(word-character) variable name: two literal open braces, the greedy
whitespace star, the name's characters as literals, the whitespace
star again, and two literal close braces. -/
def fullAtoms (k : List Char) : List RAtom :=
  .lit lb :: .lit lb :: .star (.cls jsWs) ::
    (k.map .lit ++ [.star (.cls jsWs), .lit rb, .lit rb])

/-- The remainders the greedy whitespace star can leave, longest
whitespace run consumed first. -/
def wsPrefixRems : List Char → List (List Char)
  | [] => [[]]
  | c :: cs => if jsWs c then wsPrefixRems cs ++ [c :: cs] else [c :: cs]

/-- Big-endian decimal digit characters of a number (empty for zero). -/
def bigEndianChars (n : Nat) : List Char :=
  ((Nat.digits 10 n).map Nat.digitChar).reverse

/-- The structural well-formedness invariant of the builder state --
node ids pairwise distinct and every edge endpoint an existing node id
-- together with the two auxiliary facts that keep it inductive: no
present id equals a generated id at or beyond the counter, and the
selection refers to an existing node. -/
def builderInv (st : BuilderState) : Prop :=
  (st.workflowNodes.map fun n => n.id).Nodup ∧
  (∀ e ∈ st.workflowEdges,
    (∃ n ∈ st.workflowNodes, n.id = e.source) ∧
      (∃ n ∈ st.workflowNodes, n.id = e.target)) ∧
  (∀ n ∈ st.workflowNodes, ∀ m, st.nodeIdCounter ≤ m → n.id ≠ mkNodeId m) ∧
  (∀ sel, st.selectedNodeId = some sel → ∃ n ∈ st.workflowNodes, n.id = sel)

/-- The node list after pressing the start button twice on a fresh
form. -/
def twoStartNodes : List WNode :=
  (addNode (addNode ⟨[], [], none, 1⟩ "start") "start").workflowNodes

/-! ### Generated node ids are pairwise distinct -/

lemma bigEndianChars_pos (n : Nat) (hn : n ≠ 0) :
    bigEndianChars n = bigEndianChars (n / 10) ++ [Nat.digitChar (n % 10)] := by
  unfold bigEndianChars
  rw [Nat.digits_def' (by norm_num : 1 < 10) (Nat.pos_of_ne_zero hn)]
  simp

lemma toDigitsCore_eq (fuel : Nat) :
    ∀ n ds, n < fuel →
      Nat.toDigitsCore 10 fuel n ds =
        (if n = 0 then ['0'] else bigEndianChars n) ++ ds := by
  induction fuel with
  | zero => intro n ds h; omega
  | succ f ih =>
      intro n ds _
      unfold Nat.toDigitsCore
      by_cases h0 : n / 10 = 0
      · have hn : n < 10 := (Nat.div_eq_zero_iff (by norm_num)).mp h0
        simp only [h0, if_true]
        by_cases hz : n = 0
        · subst hz; rfl
        · rw [if_neg hz, bigEndianChars_pos n hz]
          have : n / 10 = 0 := h0
          have : bigEndianChars (n / 10) = [] := by
            rw [h0]; simp [bigEndianChars]
          rw [this, Nat.mod_eq_of_lt hn]
          rfl
      · have hn0 : n ≠ 0 := by
          intro h; rw [h] at h0; exact h0 rfl
        have hlt : n / 10 < f := by
          have h1 : n / 10 < n := Nat.div_lt_self (Nat.pos_of_ne_zero hn0) (by norm_num)
          omega
        simp only [h0, if_neg]
        rw [ih (n / 10) (Nat.digitChar (n % 10) :: ds) hlt]
        rw [if_neg h0, if_neg hn0, bigEndianChars_pos n hn0]
        simp

lemma natRepr_eq (n : Nat) :
    Nat.repr n = List.asString (if n = 0 then ['0'] else bigEndianChars n) := by
  unfold Nat.repr Nat.toDigits
  rw [toDigitsCore_eq (n + 1) n [] (Nat.lt_succ_self n)]
  simp

lemma digitChar_inj_lt :
    ∀ a, a < 10 → ∀ b, b < 10 → Nat.digitChar a = Nat.digitChar b → a = b := by
  decide

lemma map_digitChar_inj :
    ∀ l1 l2 : List Nat, (∀ x ∈ l1, x < 10) → (∀ x ∈ l2, x < 10) →
      l1.map Nat.digitChar = l2.map Nat.digitChar → l1 = l2 := by
  intro l1
  induction l1 with
  | nil =>
      intro l2 _ _ h
      cases l2 with
      | nil => rfl
      | cons b bs => simp at h
  | cons a as ih =>
      intro l2 h1 h2 h
      cases l2 with
      | nil => simp at h
      | cons b bs =>
          simp only [List.map_cons, List.cons.injEq] at h
          have ha : a < 10 := h1 a (List.mem_cons_self a as)
          have hb : b < 10 := h2 b (List.mem_cons_self b bs)
          have hab : a = b := digitChar_inj_lt a ha b hb h.1
          have htl : as = bs :=
            ih bs (fun x hx => h1 x (List.mem_cons_of_mem a hx))
              (fun x hx => h2 x (List.mem_cons_of_mem b hx)) h.2
          rw [hab, htl]

lemma digits_chars_inj (a b : Nat)
    (h : (Nat.digits 10 a).map Nat.digitChar = (Nat.digits 10 b).map Nat.digitChar) :
    a = b := by
  have ha : ∀ x ∈ Nat.digits 10 a, x < 10 :=
    fun x hx => Nat.digits_lt_base (by norm_num) hx
  have hb : ∀ x ∈ Nat.digits 10 b, x < 10 :=
    fun x hx => Nat.digits_lt_base (by norm_num) hx
  have := map_digitChar_inj _ _ ha hb h
  have h2 := congrArg (Nat.ofDigits 10) this
  rwa [Nat.ofDigits_digits, Nat.ofDigits_digits] at h2

lemma natRepr_injective : Function.Injective Nat.repr := by
  intro a b h
  rw [natRepr_eq, natRepr_eq] at h
  have h' :
      (if a = 0 then ['0'] else bigEndianChars a) =
        (if b = 0 then ['0'] else bigEndianChars b) := by
    have := congrArg String.data h
    simpa [List.asString] using this
  by_cases h0 : a = 0 <;> by_cases h1 : b = 0
  · rw [h0, h1]
  · exfalso
    rw [if_pos h0, if_neg h1] at h'
    have : (Nat.digits 10 b).map Nat.digitChar = ['0'] := by
      have := congrArg List.reverse h'
      simpa [bigEndianChars] using this.symm
    have hd : Nat.digits 10 b = [0] :=
      map_digitChar_inj _ [0] (fun x hx => Nat.digits_lt_base (by norm_num) hx)
        (by intro x hx; simp at hx; omega) (by simpa using this)
    have := congrArg (Nat.ofDigits 10) hd
    rw [Nat.ofDigits_digits] at this
    simp [Nat.ofDigits] at this
    exact h1 this
  · exfalso
    rw [if_neg h0, if_pos h1] at h'
    have : (Nat.digits 10 a).map Nat.digitChar = ['0'] := by
      have := congrArg List.reverse h'
      simpa [bigEndianChars] using this
    have hd : Nat.digits 10 a = [0] :=
      map_digitChar_inj _ [0] (fun x hx => Nat.digits_lt_base (by norm_num) hx)
        (by intro x hx; simp at hx; omega) (by simpa using this)
    have := congrArg (Nat.ofDigits 10) hd
    rw [Nat.ofDigits_digits] at this
    simp [Nat.ofDigits] at this
    exact h0 this
  · rw [if_neg h0, if_neg h1] at h'
    have := congrArg List.reverse h'
    simp only [bigEndianChars, List.reverse_reverse] at this
    exact digits_chars_inj a b this

lemma mkNodeId_injective : Function.Injective mkNodeId := by
  intro a b h
  unfold mkNodeId at h
  have hdata := congrArg String.data h
  simp only [String.data_append] at hdata
  have : (toString a).data = (toString b).data :=
    List.append_cancel_left hdata
  exact natRepr_injective (String.ext this)

/-! ### The builder invariant -/

lemma addNode_fresh (st : BuilderState) (h : builderInv st) :
    mkNodeId st.nodeIdCounter ∉ st.workflowNodes.map fun n => n.id := by
  intro hmem
  simp only [List.mem_map] at hmem
  obtain ⟨n, hn, hid⟩ := hmem
  exact h.2.2.1 n hn st.nodeIdCounter le_rfl hid

lemma addNode_inv (st : BuilderState) (t : String) (h : builderInv st) :
    builderInv (addNode st t) := by
  obtain ⟨hnd, hed, hctr, hsel4⟩ := h
  refine ⟨?_, ?_, ?_, ?_⟩
  · simp only [addNode, List.map_append, List.map_cons, List.map_nil]
    rw [List.nodup_append]
    refine ⟨hnd, List.nodup_singleton _, ?_⟩
    intro x hx hy
    simp only [List.mem_singleton] at hy
    subst hy
    exact addNode_fresh st ⟨hnd, hed, hctr, hsel4⟩ hx
  · intro e he
    have := hed e he
    exact ⟨⟨this.1.choose, List.mem_append_left _ this.1.choose_spec.1,
        this.1.choose_spec.2⟩,
      ⟨this.2.choose, List.mem_append_left _ this.2.choose_spec.1,
        this.2.choose_spec.2⟩⟩
  · intro n hn m hm
    simp only [addNode, List.mem_append, List.mem_singleton] at hn
    rcases hn with hn | hn
    · exact hctr n hn m (by simp only [addNode] at hm; omega)
    · subst hn
      simp only
      intro hcontra
      have := mkNodeId_injective hcontra
      simp only [addNode] at hm
      omega
  · intro sel hsel
    simp only [addNode, Option.some.injEq] at hsel
    refine ⟨_, List.mem_append_right _ (List.mem_singleton_self _), ?_⟩
    simp [hsel]

lemma addEdge_inv (st : BuilderState) (t c : String) (h : builderInv st)
    (ht : t = "" ∨ ∃ n ∈ st.workflowNodes, n.id = t) :
    builderInv (addEdge st t c) := by
  by_cases h0 : t = ""
  · simp [addEdge, h0, h]
  · cases hsel : st.selectedNodeId with
    | none => simpa [addEdge, h0, hsel] using h
    | some sel =>
        by_cases hdup :
            (st.workflowEdges.any fun e => e.source = sel && e.target = t) = true
        · simpa [addEdge, h0, hsel, hdup] using h
        · obtain ⟨hnd, hed, hctr, hselinv⟩ := h
          have hnew : builderInv
              { st with
                workflowEdges := st.workflowEdges ++
                  [{ source := sel, target := t,
                     condition :=
                       if jsTrim c = "" then none else some (jsTrim c) }] } := by
            refine ⟨hnd, ?_, hctr, ?_⟩
            · intro e he
              simp only [List.mem_append, List.mem_singleton] at he
              rcases he with he | he
              · exact hed e he
              · subst he
                refine ⟨hselinv sel hsel, ?_⟩
                rcases ht with ht | ht
                · exact absurd ht h0
                · exact ht
            · intro s hs
              exact hselinv s hs
          simpa [addEdge, h0, hsel, hdup] using hnew

lemma deleteSelectedNode_true_eq (st : BuilderState) (sel : String)
    (hsel : st.selectedNodeId = some sel) :
    deleteSelectedNode st true =
      { workflowNodes := st.workflowNodes.filter fun n => n.id ≠ sel,
        workflowEdges :=
          st.workflowEdges.filter fun e => e.source ≠ sel && e.target ≠ sel,
        selectedNodeId := none,
        nodeIdCounter := st.nodeIdCounter } := by
  simp [deleteSelectedNode, hsel]

lemma deleteSelectedNode_inv (st : BuilderState) (ok : Bool)
    (h : builderInv st) : builderInv (deleteSelectedNode st ok) := by
  cases hsel : st.selectedNodeId with
  | none => simpa [deleteSelectedNode, hsel] using h
  | some sel =>
      cases ok with
      | false => simpa [deleteSelectedNode, hsel] using h
      | true =>
          obtain ⟨hnd, hed, hctr, _⟩ := h
          rw [deleteSelectedNode_true_eq st sel hsel]
          refine ⟨?_, ?_, ?_, ?_⟩
          · exact List.Nodup.sublist
              (List.Sublist.map _ (List.filter_sublist _)) hnd
          · intro e he
            simp only [List.mem_filter, Bool.and_eq_true,
              decide_eq_true_eq] at he
            obtain ⟨he1, hs, hmt⟩ := he
            obtain ⟨⟨n1, hn1, hid1⟩, ⟨n2, hn2, hid2⟩⟩ := hed e he1
            refine ⟨⟨n1, ?_, hid1⟩, ⟨n2, ?_, hid2⟩⟩
            · simp only [List.mem_filter, decide_eq_true_eq]
              exact ⟨hn1, by rw [hid1]; exact hs⟩
            · simp only [List.mem_filter, decide_eq_true_eq]
              exact ⟨hn2, by rw [hid2]; exact hmt⟩
          · intro n hn m hm
            simp only [List.mem_filter] at hn
            exact hctr n hn.1 m hm
          · intro s hs
            exact absurd hs (by simp)

lemma deleteSelectedNode_edges (st : BuilderState) (sel : String)
    (hsel : st.selectedNodeId = some sel) :
    (deleteSelectedNode st true).workflowEdges =
      st.workflowEdges.filter fun e => e.source ≠ sel && e.target ≠ sel := by
  simp [deleteSelectedNode, hsel]

/-- C6: the structural well-formedness invariant (distinct node ids,
every edge endpoint an existing node id) is preserved by the three
builder operations: addNode generates a fresh unused id, addEdge (whose
target comes from the dropdown listing existing node ids, or is blank)
only connects existing nodes, and deleteSelectedNode removes every edge
whose source or target is the deleted node. -/
theorem C6_wellformedness :
    (∀ st, builderInv st →
      mkNodeId st.nodeIdCounter ∉ (st.workflowNodes.map fun n => n.id)) ∧
    (∀ st t, builderInv st → builderInv (addNode st t)) ∧
    (∀ st t c, builderInv st →
      (t = "" ∨ ∃ n ∈ st.workflowNodes, n.id = t) →
      builderInv (addEdge st t c)) ∧
    (∀ st ok, builderInv st → builderInv (deleteSelectedNode st ok)) ∧
    (∀ st sel, st.selectedNodeId = some sel →
      (deleteSelectedNode st true).workflowEdges =
        st.workflowEdges.filter fun e => e.source ≠ sel && e.target ≠ sel) ∧
    (∀ st, builderInv st →
      (st.workflowNodes.map fun n => n.id).Nodup ∧
      ∀ e ∈ st.workflowEdges,
        (∃ n ∈ st.workflowNodes, n.id = e.source) ∧
          (∃ n ∈ st.workflowNodes, n.id = e.target)) :=
  ⟨addNode_fresh, addNode_inv, addEdge_inv, deleteSelectedNode_inv,
    deleteSelectedNode_edges, fun _ h => ⟨h.1, h.2.1⟩⟩

theorem C6_witness :
    builderInv (addNode ⟨[], [], none, 1⟩ "start") :=
  C6_wellformedness.2.1 ⟨[], [], none, 1⟩ "start"
    ⟨List.nodup_nil, by simp, by simp, by simp⟩

/-- C9: addEdge keeps at most one edge per ordered source/target pair:
a call whose pair already exists leaves the whole state unchanged,
whatever the new condition text, and pairwise distinctness of the
source/target pairs is preserved. -/
theorem C9_addEdge_duplicate :
    (∀ st sel t c, st.selectedNodeId = some sel →
      (∃ e ∈ st.workflowEdges, e.source = sel ∧ e.target = t) →
      addEdge st t c = st) ∧
    (∀ st t c,
      st.workflowEdges.Pairwise
        (fun e1 e2 => ¬(e1.source = e2.source ∧ e1.target = e2.target)) →
      (addEdge st t c).workflowEdges.Pairwise
        (fun e1 e2 => ¬(e1.source = e2.source ∧ e1.target = e2.target))) := by
  constructor
  · intro st sel t c hsel hex
    obtain ⟨e, he, hs, ht⟩ := hex
    by_cases h0 : t = ""
    · simp [addEdge, h0]
    · have hdup : (st.workflowEdges.any fun e => e.source = sel && e.target = t)
          = true :=
        List.any_eq_true.mpr ⟨e, he, by simp [hs, ht]⟩
      simp [addEdge, h0, hsel, hdup]
  · intro st t c hpw
    by_cases h0 : t = ""
    · simpa [addEdge, h0] using hpw
    · cases hsel : st.selectedNodeId with
      | none => simpa [addEdge, h0, hsel] using hpw
      | some sel =>
          by_cases hdup :
              (st.workflowEdges.any fun e => e.source = sel && e.target = t)
                = true
          · simpa [addEdge, h0, hsel, hdup] using hpw
          · have hnone : ∀ e ∈ st.workflowEdges,
                ¬(e.source = sel ∧ e.target = t) := by
              intro e he hcontra
              exact hdup (List.any_eq_true.mpr
                ⟨e, he, by simp [hcontra.1, hcontra.2]⟩)
            simp only [addEdge, if_neg h0, hsel]
            rw [if_neg hdup]
            rw [List.pairwise_append]
            refine ⟨hpw, List.pairwise_singleton _ _, ?_⟩
            intro a ha b hb
            simp only [List.mem_singleton] at hb
            subst hb
            intro hcon
            exact hnone a ha ⟨hcon.1, hcon.2⟩

theorem C9_witness :
    addEdge ⟨[], [⟨"node_1", "node_2", none⟩], some "node_1", 3⟩ "node_2" "Z" =
      ⟨[], [⟨"node_1", "node_2", none⟩], some "node_1", 3⟩ :=
  C9_addEdge_duplicate.1 _ "node_1" "node_2" "Z" rfl
    ⟨⟨"node_1", "node_2", none⟩, by simp, rfl, rfl⟩

/-! ### Saving and running -/

/-- C4 counterexample: the save path accepts a workflow with two start
nodes -- no validation error is raised and the persistence request is
issued. -/
theorem C4_counterexample :
    (twoStartNodes.filter fun n => n.type = "start").length = 2 ∧
    saveWorkflow "" "wf" "" twoStartNodes [] =
      .request "POST" ⟨"wf", "", twoStartNodes, []⟩ :=
  ⟨rfl, rfl⟩

/-- C4 amended: the frontend save path validates only a nonempty name
and a nonempty node list, so any workflow meeting those two conditions
-- duplicate start nodes included -- is sent for persistence; the
spec's validate operation (modelled from the spec, the backend not
being part of the frontend source) is what rejects a workflow with two
start nodes, naming the exactly-one-start-node rule. -/
theorem C4_amended :
    (∀ idF nameF descF nodes edges, jsTrim nameF ≠ "" → nodes ≠ [] →
      ∃ m p, saveWorkflow idF nameF descF nodes edges = .request m p) ∧
    (∀ nodes edges,
      2 ≤ (nodes.filter fun n => n.type = "start").length →
      validateWorkflow nodes edges =
        .invalid "workflow must have exactly one start node") := by
  constructor
  · intro idF nameF descF nodes edges hname hnodes
    unfold saveWorkflow
    rw [if_neg hname, if_neg (by simpa [List.length_eq_zero] using hnodes)]
    exact ⟨_, _, rfl⟩
  · intro nodes edges hcount
    have hlen : nodes.length ≠ 0 := by
      have := List.length_filter_le (fun n => decide (n.type = "start")) nodes
      omega
    unfold validateWorkflow
    rw [if_neg hlen, if_pos (by omega)]

theorem C4_witness :
    (∃ m p, saveWorkflow "" "wf" "" twoStartNodes [] = .request m p) ∧
    validateWorkflow twoStartNodes [] =
      .invalid "workflow must have exactly one start node" :=
  ⟨C4_amended.1 "" "wf" "" twoStartNodes [] (by decide) (by decide),
    C4_amended.2 twoStartNodes [] (by decide)⟩

/-- C5 counterexample: with an empty name and an empty node list the
reported message is the name violation, not the node-count one. -/
theorem C5_counterexample :
    saveWorkflow "" "" "" [] [] = .error "Name is required" ∧
    ("Name is required" : String) ≠ "Add at least one node" :=
  ⟨rfl, by decide⟩

/-- C5 amended: a save with zero nodes always fails validation and
issues no persistence request; the message is the node-count violation
whenever the (trimmed) name is nonempty, the empty name being reported
first otherwise.  The decision function reads the builder state and
returns before any network call, so no state changes. -/
theorem C5_empty_nodes :
    (∀ idF nameF descF edges, ∃ m,
      saveWorkflow idF nameF descF [] edges = .error m) ∧
    (∀ idF nameF descF edges, jsTrim nameF ≠ "" →
      saveWorkflow idF nameF descF [] edges = .error "Add at least one node") := by
  constructor
  · intro idF nameF descF edges
    unfold saveWorkflow
    by_cases h : jsTrim nameF = ""
    · exact ⟨"Name is required", by rw [if_pos h]⟩
    · exact ⟨"Add at least one node", by rw [if_neg h]; simp⟩
  · intro idF nameF descF edges h
    unfold saveWorkflow
    rw [if_neg h]
    simp

theorem C5_witness :
    saveWorkflow "" "w" "" [] [] = .error "Add at least one node" :=
  C5_empty_nodes.2 "" "w" "" [] (by decide)

/-- updateConfig never changes the node id. -/
lemma updateConfig_id (n : WNode) (lbl mv sv pv tidv tiv cv : String) :
    (updateConfig n lbl mv sv pv tidv tiv cv).id = n.id := by
  unfold updateConfig
  by_cases h1 : n.type = "agent"
  · simp [h1]
  · by_cases h2 : n.type = "tool"
    · simp [h1, h2]
    · by_cases h3 : n.type = "condition" <;> simp [h1, h2, h3]

/-- Finding by id after replacing the first hit, for an id-preserving
update. -/
lemma find?_replaceFirst (nodes : List WNode) (sel : String)
    (f : WNode → WNode) (hf : ∀ m, (f m).id = m.id) :
    (replaceFirst nodes sel f).find? (fun x => x.id = sel) =
      (nodes.find? fun x => x.id = sel).map f := by
  induction nodes with
  | nil => rfl
  | cons n rest ih =>
      by_cases h : n.id = sel
      · unfold replaceFirst
        rw [if_pos h]
        rw [List.find?_cons_of_pos _ (by simp [hf n, h]),
          List.find?_cons_of_pos _ (by simp [h])]
        rfl
      · unfold replaceFirst
        rw [if_neg h]
        rw [List.find?_cons_of_neg _ (by simp [h]),
          List.find?_cons_of_neg _ (by simp [h])]
        exact ih

/-- C7: a new agent node is created with prompt_template defaulting to
the input placeholder and a new tool node with input_template
defaulting to the prev_output placeholder; updating a selected node
from the editor with an empty template field restores the same
default. -/
theorem C7_default_templates :
    (∀ st, ∃ n, (addNode st "agent").workflowNodes = st.workflowNodes ++ [n] ∧
      n.config.prompt_template = some "\x7b\x7binput\x7d\x7d") ∧
    (∀ st, ∃ n, (addNode st "tool").workflowNodes = st.workflowNodes ++ [n] ∧
      n.config.input_template = some "\x7b\x7bprev_output\x7d\x7d") ∧
    (∀ st sel n lbl mv sv tidv tiv cv, st.selectedNodeId = some sel →
      (st.workflowNodes.find? fun x => x.id = sel) = some n →
      n.type = "agent" →
      ∃ n', ((updateNodeFromEditor st lbl mv sv "" tidv tiv cv).workflowNodes.find?
          fun x => x.id = sel) = some n' ∧
        n'.config.prompt_template = some "\x7b\x7binput\x7d\x7d") ∧
    (∀ st sel n lbl mv sv pv tidv cv, st.selectedNodeId = some sel →
      (st.workflowNodes.find? fun x => x.id = sel) = some n →
      n.type = "tool" →
      ∃ n', ((updateNodeFromEditor st lbl mv sv pv tidv "" cv).workflowNodes.find?
          fun x => x.id = sel) = some n' ∧
        n'.config.input_template = some "\x7b\x7bprev_output\x7d\x7d") := by
  refine ⟨fun st => ⟨_, rfl, rfl⟩, fun st => ⟨_, rfl, rfl⟩, ?_, ?_⟩
  · intro st sel n lbl mv sv tidv tiv cv hsel hfind htype
    unfold updateNodeFromEditor
    rw [hsel]
    simp only [hfind, Option.isSome_some, if_pos]
    rw [find?_replaceFirst st.workflowNodes sel _
      (fun m => updateConfig_id m lbl mv sv "" tidv tiv cv), hfind]
    refine ⟨_, rfl, ?_⟩
    show (updateConfig n lbl mv sv "" tidv tiv cv).config.prompt_template =
      some "\x7b\x7binput\x7d\x7d"
    simp [updateConfig, htype, jsOr]
  · intro st sel n lbl mv sv pv tidv cv hsel hfind htype
    unfold updateNodeFromEditor
    rw [hsel]
    simp only [hfind, Option.isSome_some, if_pos]
    rw [find?_replaceFirst st.workflowNodes sel _
      (fun m => updateConfig_id m lbl mv sv pv tidv "" cv), hfind]
    refine ⟨_, rfl, ?_⟩
    show (updateConfig n lbl mv sv pv tidv "" cv).config.input_template =
      some "\x7b\x7bprev_output\x7d\x7d"
    simp [updateConfig, htype, jsOr]

theorem C7_witness :
    ∃ n, (addNode ⟨[], [], none, 1⟩ "agent").workflowNodes = [] ++ [n] ∧
      n.config.prompt_template = some "\x7b\x7binput\x7d\x7d" :=
  C7_default_templates.1 ⟨[], [], none, 1⟩

/-- C10: the renderer treats variable names as regular-expression
text, not literal text: for the name with a plus metacharacter the
literal double-braced occurrence is not replaced (though the
specification-side literal replacement would replace it, and the
regex-matching occurrence aab is replaced instead), and a name
consisting of an open parenthesis makes the RegExp construction raise
a SyntaxError instead of producing a rendered preview. -/
theorem C10_regex_treatment :
    renderTemplate "\x7b\x7ba+b\x7d\x7d" [("a+b", "X")] =
      some "\x7b\x7ba+b\x7d\x7d" ∧
    literalRender "a+b".data "X".data "\x7b\x7ba+b\x7d\x7d".data = "X".data ∧
    ("\x7b\x7ba+b\x7d\x7d" : String) ≠ "X" ∧
    renderTemplate "\x7b\x7baab\x7d\x7d" [("a+b", "X")] = some "X" ∧
    renderTemplate "\x7b\x7bx\x7d\x7d" [("(", "X")] = none :=
  ⟨rfl, rfl, by decide, rfl, rfl⟩

/-- C8 counterexample: a blank but nonempty run input is neither the
empty string nor valid JSON, yet the run request is still issued (with
the empty-object default), because the input is trimmed first. -/
theorem C8_counterexample :
    runWorkflow "1" " " = .request (some 1) (.obj []) ∧
    jsonParse " " = none ∧ (" " : String) ≠ "" :=
  ⟨rfl, rfl, by decide⟩

/-- C8 amended: the run trigger issues a request, carrying exactly the
numeric workflow id and the input data, if and only if the id field is
nonempty and the trimmed input is empty or parses as JSON; with a
saved id and a nonblank unparsable input, no request is sent and the
message is the invalid-JSON one. -/
theorem C8_run_request :
    (∀ wid input, (∃ w d, runWorkflow wid input = .request w d) ↔
      (wid ≠ "" ∧ (jsTrim input = "" ∨ (jsonParse (jsTrim input)).isSome))) ∧
    (∀ wid input, wid ≠ "" → jsTrim input ≠ "" →
      jsonParse (jsTrim input) = none →
      runWorkflow wid input = .noRequest "Invalid JSON input") ∧
    (∀ wid input w d, runWorkflow wid input = .request w d →
      w = jsNumber wid) := by
  have hrun : ∀ wid input, wid ≠ "" → jsTrim input ≠ "" →
      ∀ v, jsonParse (jsTrim input) = some v →
      runWorkflow wid input = .request (jsNumber wid) v := by
    intro wid input h1 h2 v hv
    unfold runWorkflow
    rw [if_neg h1, if_neg h2, hv]
  refine ⟨?_, ?_, ?_⟩
  · intro wid input
    constructor
    · rintro ⟨w, d, hw⟩
      unfold runWorkflow at hw
      by_cases h1 : wid = ""
      · rw [if_pos h1] at hw; exact absurd hw (by simp)
      · refine ⟨h1, ?_⟩
        by_cases h2 : jsTrim input = ""
        · exact Or.inl h2
        · rw [if_neg h1, if_neg h2] at hw
          cases hv : jsonParse (jsTrim input) with
          | none => rw [hv] at hw; exact absurd hw (by simp)
          | some v => exact Or.inr (by simp [hv])
    · rintro ⟨h1, h2 | h2⟩
      · refine ⟨jsNumber wid, .obj [], ?_⟩
        unfold runWorkflow
        rw [if_neg h1, if_pos h2]
      · cases hv : jsonParse (jsTrim input) with
        | none => rw [hv] at h2; exact absurd h2 (by simp)
        | some v =>
            by_cases h3 : jsTrim input = ""
            · refine ⟨jsNumber wid, .obj [], ?_⟩
              unfold runWorkflow
              rw [if_neg h1, if_pos h3]
            · exact ⟨jsNumber wid, v, hrun wid input h1 h3 v hv⟩
  · intro wid input h1 h2 hv
    unfold runWorkflow
    rw [if_neg h1, if_neg h2, hv]
  · intro wid input w d hw
    unfold runWorkflow at hw
    by_cases h1 : wid = ""
    · rw [if_pos h1] at hw; exact absurd hw (by simp)
    · by_cases h2 : jsTrim input = ""
      · rw [if_neg h1, if_pos h2] at hw
        cases hw; rfl
      · rw [if_neg h1, if_neg h2] at hw
        cases hv : jsonParse (jsTrim input) with
        | none => rw [hv] at hw; exact absurd hw (by simp)
        | some v => rw [hv] at hw; cases hw; rfl

theorem C8_witness :
    runWorkflow "1" "oops" = .noRequest "Invalid JSON input" :=
  C8_run_request.2.1 "1" "oops" (by decide) (by decide) rfl

/-! ### The placeholder pattern of a plain name compiles to its atoms -/

lemma jsWord_not_special (c : Char) (h : jsWord c = true) :
    c ≠ ')' ∧ c ≠ '(' ∧ c ≠ '\\' ∧ ¬(c = '*' ∨ c = '+' ∨ c = '?') ∧
      c ≠ lb ∧ ¬(c = '[' ∨ c = '|' ∨ c = '^' ∨ c = '$') ∧ c ≠ '.' := by
  refine ⟨fun hc => absurd (hc ▸ h) (by decide),
    fun hc => absurd (hc ▸ h) (by decide),
    fun hc => absurd (hc ▸ h) (by decide), ?_,
    fun hc => absurd (hc ▸ h) (by decide), ?_,
    fun hc => absurd (hc ▸ h) (by decide)⟩
  · rintro (hc | hc | hc) <;> exact absurd (hc ▸ h) (by decide)
  · rintro (hc | hc | hc | hc) <;> exact absurd (hc ▸ h) (by decide)

lemma parseSeq_plainChar (fuel : Nat) (c : Char) (cs : List Char)
    (acc : List RAtom) (h : jsWord c = true) :
    parseSeq (fuel + 1) (c :: cs) acc = parseSeq fuel cs (.lit c :: acc) := by
  obtain ⟨h1, h2, h3, h4, h5, h6, h7⟩ := jsWord_not_special c h
  rw [parseSeq.eq_def]
  simp only [if_neg h1, if_neg h2, if_neg h3, if_neg h4, if_neg h5, if_neg h6,
    if_neg h7]

lemma parseSeq_plainRun (k : List Char) (hk : ∀ c ∈ k, jsWord c = true) :
    ∀ fuel acc, 6 + k.length ≤ fuel →
      parseSeq fuel (k ++ '\\' :: 's' :: '*' :: rb :: rb :: []) acc =
        some (acc.reverse ++
          (k.map .lit ++ [.star (.cls jsWs), .lit rb, .lit rb]), []) := by
  induction k with
  | nil =>
      intro fuel acc h
      obtain ⟨f, rfl⟩ : ∃ f, fuel = f + 6 := ⟨fuel - 6, by omega⟩
      show (some ((RAtom.lit rb :: .lit rb :: .star (.cls jsWs) :: acc).reverse,
          ([] : List Char)) : Option (List RAtom × List Char)) = _
      simp
  | cons c k' ih =>
      intro fuel acc h
      simp only [List.length_cons] at h
      obtain ⟨f, rfl⟩ : ∃ f, fuel = f + 1 := ⟨fuel - 1, by omega⟩
      rw [List.cons_append,
        parseSeq_plainChar f c _ acc (hk c (List.mem_cons_self c k')),
        ih (fun x hx => hk x (List.mem_cons_of_mem c hx)) f (.lit c :: acc)
          (by omega)]
      simp

lemma parsePattern_plain (k : List Char) (hk : ∀ c ∈ k, jsWord c = true) :
    parsePattern (patternChars k) = some (fullAtoms k) := by
  have hstep : parseSeq ((patternChars k).length + 1) (patternChars k) [] =
      some (fullAtoms k, []) := by
    have hlen : (patternChars k).length + 1 = (k.length + 7) + 4 := by
      simp only [patternChars, List.length_cons, List.length_append,
        List.length_nil]
    rw [hlen]
    show parseSeq (k.length + 7)
        (k ++ '\\' :: 's' :: '*' :: rb :: rb :: [])
        [.star (.cls jsWs), .lit lb, .lit lb] = some (fullAtoms k, [])
    rw [parseSeq_plainRun k hk (k.length + 7) _ (by omega)]
    simp [fullAtoms]
  unfold parsePattern
  rw [hstep]

/-! ### Matching the compiled pattern is the literal whitespace-
tolerant placeholder match -/

lemma starLoop_ws :
    ∀ fuel s, s.length < fuel →
      starLoop (matchAtom (.cls jsWs)) fuel s = wsPrefixRems s := by
  intro fuel
  induction fuel with
  | zero => intro s h; omega
  | succ f ih =>
      intro s h
      cases s with
      | nil => rfl
      | cons c cs =>
          by_cases hc : jsWs c = true
          · have h1 : matchAtom (.cls jsWs) (c :: cs) = [cs] := by
              simp [matchAtom, hc]
            unfold starLoop
            rw [h1]
            have h2 : List.filter
                (fun r => decide (r.length < (c :: cs).length)) [cs] = [cs] := by
              simp
            rw [h2]
            simp only [List.flatMap_cons, List.flatMap_nil, List.append_nil]
            rw [ih cs (by simp only [List.length_cons] at h; omega)]
            simp [wsPrefixRems, hc]
          · have h1 : matchAtom (.cls jsWs) (c :: cs) = [] := by
              simp [matchAtom, hc]
            unfold starLoop
            rw [h1]
            simp [wsPrefixRems, hc]

lemma wsPrefixRems_flatMap (rest : List RAtom)
    (hfail : ∀ c cs, jsWs c = true → matchSeq rest (c :: cs) = []) :
    ∀ s, (wsPrefixRems s).flatMap (matchSeq rest) =
      matchSeq rest (s.dropWhile fun c => jsWs c) := by
  intro s
  induction s with
  | nil => simp [wsPrefixRems]
  | cons c cs ih =>
      by_cases hc : jsWs c = true
      · rw [show wsPrefixRems (c :: cs) = wsPrefixRems cs ++ [c :: cs] from
          by simp [wsPrefixRems, hc]]
        rw [List.flatMap_append, ih]
        simp [hfail c cs hc, List.dropWhile_cons, hc]
      · rw [show wsPrefixRems (c :: cs) = [c :: cs] from
          by simp [wsPrefixRems, hc]]
        simp [List.dropWhile_cons, hc]

lemma matchSeq_wsStar (rest : List RAtom) (s : List Char)
    (hfail : ∀ c cs, jsWs c = true → matchSeq rest (c :: cs) = []) :
    matchSeq (.star (.cls jsWs) :: rest) s =
      matchSeq rest (s.dropWhile fun c => jsWs c) := by
  have hstar : matchAtom (.star (.cls jsWs)) s = wsPrefixRems s := by
    show starLoop (matchAtom (.cls jsWs)) (s.length + 1) s = _
    exact starLoop_ws _ s (Nat.lt_succ_self _)
  show (matchAtom (.star (.cls jsWs)) s).flatMap (matchSeq rest) = _
  rw [hstar]
  exact wsPrefixRems_flatMap rest hfail s

lemma matchSeq_lits (k : List Char) (rest : List RAtom) :
    ∀ s, matchSeq (k.map .lit ++ rest) s =
      if k.isPrefixOf s then matchSeq rest (s.drop k.length) else [] := by
  induction k with
  | nil => intro s; simp [List.isPrefixOf]
  | cons c k' ih =>
      intro s
      cases s with
      | nil => simp [matchSeq, matchAtom, List.isPrefixOf]
      | cons x xs =>
          by_cases hx : x = c
          · subst hx
            have hstep : matchSeq ((x :: k').map .lit ++ rest) (x :: xs) =
                matchSeq (k'.map .lit ++ rest) xs := by
              show (matchAtom (.lit x) (x :: xs)).flatMap _ = _
              rw [show matchAtom (.lit x) (x :: xs) = [xs] from
                by simp [matchAtom]]
              simp
            rw [hstep, ih xs]
            have hpre : (x :: k').isPrefixOf (x :: xs) = k'.isPrefixOf xs := by
              simp [List.isPrefixOf]
            rw [hpre]
            rfl
          · have hstep : matchSeq ((c :: k').map .lit ++ rest) (x :: xs) = [] := by
              show (matchAtom (.lit c) (x :: xs)).flatMap _ = _
              rw [show matchAtom (.lit c) (x :: xs) = [] from
                by simp [matchAtom, hx]]
              simp
            rw [hstep, if_neg]
            simp only [List.isPrefixOf, Bool.and_eq_true, beq_iff_eq]
            rintro ⟨h1, -⟩
            exact hx h1.symm

lemma jsWord_ne_jsWs (a c : Char) (ha : jsWord a = true) (hc : jsWs c = true) :
    a ≠ c := by
  intro h
  subst h
  simp only [jsWord, jsWs] at ha hc
  simp only [Bool.or_eq_true, Bool.and_eq_true, decide_eq_true_eq] at ha hc
  omega

lemma jsWs_ne_rb (c : Char) (hc : jsWs c = true) : c ≠ rb := by
  intro h
  subst h
  exact absurd hc (by decide)

lemma litMatch_core (k : List Char) (hke : k ≠ [])
    (hkw : ∀ c ∈ k, jsWord c = true) (s : List Char) :
    matchSeq (fullAtoms k) s =
      (match litMatchWS k s with | some r => [r] | none => []) := by
  have hfail1 : ∀ c cs, jsWs c = true →
      matchSeq (k.map .lit ++ [.star (.cls jsWs), .lit rb, .lit rb])
        (c :: cs) = [] := by
    intro c cs hc
    rw [matchSeq_lits]
    rw [if_neg]
    cases k with
    | nil => exact absurd rfl hke
    | cons k0 k1 =>
        simp only [List.isPrefixOf, Bool.and_eq_true, beq_iff_eq]
        rintro ⟨h1, -⟩
        exact jsWord_ne_jsWs k0 c (hkw k0 (List.mem_cons_self k0 k1)) hc h1
  have hfail2 : ∀ c cs, jsWs c = true →
      matchSeq [RAtom.lit rb, .lit rb] (c :: cs) = [] := by
    intro c cs hc
    simp [matchSeq, matchAtom, jsWs_ne_rb c hc]
  cases s with
  | nil => rfl
  | cons c1 t =>
      cases t with
      | nil =>
          by_cases h1 : c1 = lb
          · subst h1
            rfl
          · show (matchAtom (.lit lb) [c1]).flatMap _ =
              (match litMatchWS k [c1] with | some r => [r] | none => [])
            simp [matchAtom, litMatchWS, fun h => h1 h]
      | cons c2 s2 =>
          by_cases h1 : c1 = lb
          · by_cases h2 : c2 = lb
            · subst h1; subst h2
              have hhead : matchSeq (fullAtoms k) (lb :: lb :: s2) =
                  matchSeq (.star (.cls jsWs) ::
                    (k.map .lit ++ [.star (.cls jsWs), .lit rb, .lit rb]))
                    s2 := by
                simp [fullAtoms, matchSeq, matchAtom]
              rw [hhead, matchSeq_wsStar _ _ hfail1, matchSeq_lits]
              have hlit : litMatchWS k (lb :: lb :: s2) =
                  (if k.isPrefixOf (s2.dropWhile fun c => jsWs c) then
                    (match ((s2.dropWhile fun c => jsWs c).drop
                        k.length).dropWhile (fun c => jsWs c) with
                      | d1 :: d2 :: r3 =>
                          if d1 = rb && d2 = rb then some r3 else none
                      | _ => none)
                  else none) := by
                simp [litMatchWS]
              rw [hlit]
              by_cases hp : k.isPrefixOf (s2.dropWhile fun c => jsWs c)
              · rw [if_pos hp, if_pos hp,
                  matchSeq_wsStar _ _ hfail2]
                cases hfin : ((s2.dropWhile fun c => jsWs c).drop
                    k.length).dropWhile (fun c => jsWs c) with
                | nil => rfl
                | cons d1 t1 =>
                    cases t1 with
                    | nil =>
                        by_cases hd1 : d1 = rb
                        · subst hd1; rfl
                        · simp [matchSeq, matchAtom, hd1]
                    | cons d2 r3 =>
                        by_cases hd1 : d1 = rb
                        · by_cases hd2 : d2 = rb
                          · subst hd1; subst hd2
                            simp [matchSeq, matchAtom]
                          · simp [matchSeq, matchAtom, hd1, hd2]
                        · simp [matchSeq, matchAtom, hd1]
              · rw [if_neg hp, if_neg hp]
            · subst h1
              have hlhs : matchSeq (fullAtoms k) (lb :: c2 :: s2) = [] := by
                simp [fullAtoms, matchSeq, matchAtom, h2]
              have hrhs : litMatchWS k (lb :: c2 :: s2) = none := by
                simp [litMatchWS, h2]
              rw [hlhs, hrhs]
          · have hlhs : matchSeq (fullAtoms k) (c1 :: c2 :: s2) = [] := by
              simp [fullAtoms, matchSeq, matchAtom, h1]
            have hrhs : litMatchWS k (c1 :: c2 :: s2) = none := by
              simp [litMatchWS, h1]
            rw [hlhs, hrhs]

lemma matchFirst_full (k : List Char) (hke : k ≠ [])
    (hkw : ∀ c ∈ k, jsWord c = true) (s : List Char) :
    matchFirst (fullAtoms k) s = litMatchWS k s := by
  unfold matchFirst
  rw [litMatch_core k hke hkw s]
  cases litMatchWS k s <;> rfl

lemma litMatchWS_length (k s rest : List Char)
    (h : litMatchWS k s = some rest) : rest.length + 4 ≤ s.length := by
  cases s with
  | nil => exact absurd h (by simp [litMatchWS])
  | cons c1 t =>
      cases t with
      | nil => exact absurd h (by simp [litMatchWS])
      | cons c2 r =>
          simp only [litMatchWS] at h
          by_cases hb : (c1 = lb && c2 = lb) = true
          · rw [if_pos hb] at h
            by_cases hp : k.isPrefixOf (r.dropWhile fun c => jsWs c)
            · rw [if_pos hp] at h
              cases hfin : ((r.dropWhile fun c => jsWs c).drop
                  k.length).dropWhile (fun c => jsWs c) with
              | nil => rw [hfin] at h; exact absurd h (by simp)
              | cons d1 t1 =>
                  cases t1 with
                  | nil => rw [hfin] at h; exact absurd h (by simp)
                  | cons d2 r3 =>
                      rw [hfin] at h
                      have h' : (if (d1 = rb && d2 = rb) = true then some r3
                          else none) = some rest := h
                      by_cases hd : (d1 = rb && d2 = rb) = true
                      · rw [if_pos hd] at h'
                        have hrest : rest = r3 := by
                          cases h'; rfl
                        subst hrest
                        have h1 : (d1 :: d2 :: rest).length ≤
                            ((r.dropWhile fun c => jsWs c).drop k.length).length := by
                          rw [← hfin]
                          exact (List.dropWhile_sublist _).length_le
                        have h2 : ((r.dropWhile fun c => jsWs c).drop
                            k.length).length ≤
                            (r.dropWhile fun c => jsWs c).length := by
                          rw [List.length_drop]
                          omega
                        have h3 : (r.dropWhile fun c => jsWs c).length ≤
                            r.length := (List.dropWhile_sublist _).length_le
                        simp only [List.length_cons] at h1 ⊢
                        omega
                      · rw [if_neg hd] at h'
                        exact absurd h' (by simp)
            · rw [if_neg hp] at h; exact absurd h (by simp)
          · rw [if_neg hb] at h; exact absurd h (by simp)

lemma getSubstitution_dollarFree (v : List Char) (hv : dollarFree v = true) :
    ∀ matched before after, getSubstitution v matched before after = v := by
  induction v with
  | nil => intro matched before after; rfl
  | cons c r ih =>
      intro matched before after
      simp only [dollarFree, List.all_cons, Bool.and_eq_true,
        decide_eq_true_eq] at hv
      have hr : dollarFree r = true := hv.2
      rw [getSubstitution.eq_def]
      simp only [if_neg hv.1]
      rw [ih hr matched before after]

lemma replaceScan_cons_none (f : Nat) (ast : List RAtom)
    (repl before : List Char) (c : Char) (cs : List Char)
    (h : matchFirst ast (c :: cs) = none) :
    replaceScan (f + 1) ast repl before (c :: cs) =
      c :: replaceScan f ast repl (before ++ [c]) cs := by
  rw [replaceScan.eq_def]
  simp only [h]

lemma replaceScan_cons_some (f : Nat) (ast : List RAtom)
    (repl before : List Char) (c : Char) (cs rest : List Char)
    (h : matchFirst ast (c :: cs) = some rest)
    (hlen : rest.length ≠ (c :: cs).length) :
    replaceScan (f + 1) ast repl before (c :: cs) =
      getSubstitution repl
          ((c :: cs).take ((c :: cs).length - rest.length)) before rest ++
        replaceScan f ast repl
          (before ++ (c :: cs).take ((c :: cs).length - rest.length)) rest := by
  rw [replaceScan.eq_def]
  simp only [h, if_neg hlen]

lemma literalReplace_cons (k v : List Char) (f : Nat) (c : Char)
    (cs : List Char) :
    literalReplace k v (f + 1) (c :: cs) =
      (match litMatchWS k (c :: cs) with
        | some rest => v ++ literalReplace k v f rest
        | none => c :: literalReplace k v f cs) := rfl

lemma replaceScan_eq_literalReplace (k v : List Char) (hke : k ≠ [])
    (hkw : ∀ c ∈ k, jsWord c = true) (hv : dollarFree v = true) :
    ∀ fuel before s, s.length < fuel →
      replaceScan fuel (fullAtoms k) v before s = literalReplace k v fuel s := by
  intro fuel
  induction fuel with
  | zero => intro before s h; omega
  | succ f ih =>
      intro before s h
      cases s with
      | nil => rfl
      | cons c cs =>
          cases hlit : litMatchWS k (c :: cs) with
          | none =>
              rw [replaceScan_cons_none f _ v before c cs
                (by rw [matchFirst_full k hke hkw, hlit])]
              rw [literalReplace_cons, hlit]
              exact congrArg (c :: ·)
                (ih (before ++ [c]) cs
                  (by simp only [List.length_cons] at h; omega))
          | some rest =>
              have hlen4 := litMatchWS_length k (c :: cs) rest hlit
              have hne : rest.length ≠ (c :: cs).length := by
                simp only [List.length_cons] at hlen4 ⊢
                omega
              rw [replaceScan_cons_some f _ v before c cs rest
                (by rw [matchFirst_full k hke hkw, hlit]) hne]
              rw [getSubstitution_dollarFree v hv]
              rw [literalReplace_cons, hlit]
              refine congrArg (v ++ ·) (ih _ rest ?_)
              simp only [List.length_cons] at h hlen4
              omega

lemma replaceScan_noOccur (k v : List Char) (hke : k ≠ [])
    (hkw : ∀ c ∈ k, jsWord c = true) :
    ∀ fuel before s, s.length < fuel → hasPlaceholder k s = false →
      replaceScan fuel (fullAtoms k) v before s = s := by
  intro fuel
  induction fuel with
  | zero => intro before s h; omega
  | succ f ih =>
      intro before s h hocc
      cases s with
      | nil => rfl
      | cons c cs =>
          simp only [hasPlaceholder, Bool.or_eq_false_iff] at hocc
          have hnone : litMatchWS k (c :: cs) = none :=
            Option.not_isSome_iff_eq_none.mp (by simp [hocc.1])
          rw [replaceScan_cons_none f _ v before c cs
            (by rw [matchFirst_full k hke hkw]; exact hnone)]
          exact congrArg (c :: ·)
            (ih (before ++ [c]) cs
              (by simp only [List.length_cons] at h; omega) hocc.2)

lemma plainKey_spec (k : List Char) (h : plainKey k = true) :
    k ≠ [] ∧ ∀ c ∈ k, jsWord c = true := by
  simp only [plainKey, Bool.and_eq_true, Bool.not_eq_true',
    List.isEmpty_eq_false, List.all_eq_true] at h
  exact ⟨by simpa using h.1, fun c hc => h.2 c hc⟩

lemma replaceVar_plain (t k v : List Char) (hk : plainKey k = true)
    (hv : dollarFree v = true) :
    replaceVar t k v = some (literalRender k v t) := by
  obtain ⟨hke, hkw⟩ := plainKey_spec k hk
  unfold replaceVar
  rw [parsePattern_plain k hkw]
  unfold jsReplaceAll literalRender
  simp only [Option.map_some']
  exact congrArg some
    (replaceScan_eq_literalReplace k v hke hkw hv (t.length + 1) [] t
      (Nat.lt_succ_self _))

lemma replaceVar_noOccur (t k v : List Char) (hk : plainKey k = true)
    (hocc : hasPlaceholder k t = false) :
    replaceVar t k v = some t := by
  obtain ⟨hke, hkw⟩ := plainKey_spec k hk
  unfold replaceVar
  rw [parsePattern_plain k hkw]
  unfold jsReplaceAll
  simp only [Option.map_some']
  exact congrArg some
    (replaceScan_noOccur k v hke hkw (t.length + 1) [] t
      (Nat.lt_succ_self _) hocc)

lemma renderTemplate_single (tmpl k v : String)
    (hk : plainKey k.data = true) (hv : dollarFree v.data = true) :
    renderTemplate tmpl [(k, v)] =
      some (String.mk (literalRender k.data v.data tmpl.data)) := by
  unfold renderTemplate
  simp only [List.foldl_cons, List.foldl_nil]
  rw [show (some tmpl.data).bind
      (fun r => replaceVar r (k, v).1.data (k, v).2.data) =
      replaceVar tmpl.data k.data v.data from rfl]
  rw [replaceVar_plain tmpl.data k.data v.data hk hv]
  rfl

lemma renderTemplate_noOccur (tmpl : String) (vars : List (String × String))
    (h : ∀ kv ∈ vars, plainKey kv.1.data = true ∧
      hasPlaceholder kv.1.data tmpl.data = false) :
    renderTemplate tmpl vars = some tmpl := by
  unfold renderTemplate
  have hfold : vars.foldl
      (fun acc kv => acc.bind fun r => replaceVar r kv.1.data kv.2.data)
      (some tmpl.data) = some tmpl.data := by
    induction vars with
    | nil => rfl
    | cons kv rest ih =>
        rw [List.foldl_cons]
        have hstep : (some tmpl.data).bind
            (fun r => replaceVar r kv.1.data kv.2.data) = some tmpl.data := by
          show replaceVar tmpl.data kv.1.data kv.2.data = some tmpl.data
          exact replaceVar_noOccur tmpl.data kv.1.data kv.2.data
            (h kv (List.mem_cons_self kv rest)).1
            (h kv (List.mem_cons_self kv rest)).2
        rw [hstep]
        exact ih fun x hx => h x (List.mem_cons_of_mem kv hx)
  rw [hfold]
  rfl

/-- C1 counterexample: a bound value containing a dollar escape is not
inserted as the bound string value -- the dollar-ampersand escape of
String.prototype.replace reinstates the matched text, so the rendered
output is the original placeholder, not the value. -/
theorem C1_counterexample :
    renderTemplate "\x7b\x7ba\x7d\x7d" [("a", "$&")] =
      some "\x7b\x7ba\x7d\x7d" ∧
    ("\x7b\x7ba\x7d\x7d" : String) ≠ "$&" :=
  ⟨rfl, by decide⟩

/-- C1 amended: for a binding whose name is a plain word-character
identifier and whose value contains no dollar character, one rendering
pass replaces every double-braced occurrence of the name, whitespace
tolerated inside the braces, by exactly the bound value: the source
renderer coincides with the specification-side literal renderer.  In
particular the spec's P6 instance holds, as does a whitespace-tolerant
instance. -/
theorem C1_interpolation :
    (∀ tmpl k v : String, plainKey k.data = true → dollarFree v.data = true →
      renderTemplate tmpl [(k, v)] =
        some (String.mk (literalRender k.data v.data tmpl.data))) ∧
    renderTemplate "Q: \x7b\x7binput\x7d\x7d"
      [("input", "2+2"), ("prev_output", "")] = some "Q: 2+2" ∧
    renderTemplate "A \x7b\x7b input \x7d\x7d B" [("input", "v")] =
      some "A v B" :=
  ⟨fun tmpl k v hk hv => renderTemplate_single tmpl k v hk hv, rfl, rfl⟩

theorem C1_witness :
    renderTemplate "x \x7b\x7ba\x7d\x7d y" [("a", "z")] =
      some (String.mk
        (literalRender "a".data "z".data "x \x7b\x7ba\x7d\x7d y".data)) :=
  C1_interpolation.1 "x \x7b\x7ba\x7d\x7d y" "a" "z" (by decide) (by decide)

/-- C2: a placeholder whose name is not bound in the context survives
rendering as literal text and no error is raised: whenever no bound
name (all plain identifiers) has a placeholder occurrence in the
template, rendering returns the template unchanged; in particular the
spec's P5 instance holds, also in a template mixing a bound and an
unbound placeholder. -/
theorem C2_unknown_vars :
    (∀ (tmpl : String) (vars : List (String × String)),
      (∀ kv ∈ vars, plainKey kv.1.data = true ∧
        hasPlaceholder kv.1.data tmpl.data = false) →
      renderTemplate tmpl vars = some tmpl) ∧
    renderTemplate "\x7b\x7bmissing\x7d\x7d"
      [("input", "x"), ("prev_output", "y")] =
      some "\x7b\x7bmissing\x7d\x7d" ∧
    renderTemplate "\x7b\x7bmissing\x7d\x7d and \x7b\x7binput\x7d\x7d"
      [("input", "x"), ("prev_output", "y")] =
      some "\x7b\x7bmissing\x7d\x7d and x" :=
  ⟨fun tmpl vars h => renderTemplate_noOccur tmpl vars h, rfl, rfl⟩

theorem C2_witness :
    renderTemplate "\x7b\x7bmissing\x7d\x7d"
      [("input", "x"), ("prev_output", "y")] =
      some "\x7b\x7bmissing\x7d\x7d" :=
  C2_unknown_vars.1 "\x7b\x7bmissing\x7d\x7d"
    [("input", "x"), ("prev_output", "y")] (by decide)

/-- C3 counterexample: substitution is applied per binding in context
entry order over the whole current string, so a substituted value that
contains the placeholder of a binding processed later is re-scanned
and expanded: rendering the a-placeholder against a bound to the
b-placeholder and b bound to X yields X, not the verbatim
b-placeholder. -/
theorem C3_counterexample :
    renderTemplate "\x7b\x7ba\x7d\x7d"
      [("a", "\x7b\x7bb\x7d\x7d"), ("b", "X")] = some "X" ∧
    ("X" : String) ≠ "\x7b\x7bb\x7d\x7d" :=
  ⟨rfl, by decide⟩

/-- C3 amended: rendering performs one global replace per binding in
context entry order; within a single binding's pass the substituted
value is emitted verbatim and never re-scanned (the source renderer
equals the no-rescan literal renderer), so a value carrying the same
binding's placeholder, or that of a binding already processed, is left
verbatim -- only placeholders of bindings later in the entry order are
expanded. -/
theorem C3_no_rescan_within_pass :
    (∀ tmpl k v : String, plainKey k.data = true → dollarFree v.data = true →
      renderTemplate tmpl [(k, v)] =
        some (String.mk (literalRender k.data v.data tmpl.data))) ∧
    renderTemplate "\x7b\x7ba\x7d\x7d"
      [("b", "X"), ("a", "\x7b\x7bb\x7d\x7d")] =
      some "\x7b\x7bb\x7d\x7d" ∧
    renderTemplate "\x7b\x7ba\x7d\x7d" [("a", "\x7b\x7ba\x7d\x7d")] =
      some "\x7b\x7ba\x7d\x7d" :=
  ⟨fun tmpl k v hk hv => renderTemplate_single tmpl k v hk hv, rfl, rfl⟩

theorem C3_witness :
    renderTemplate "\x7b\x7bq\x7d\x7d" [("q", "\x7b\x7bq\x7d\x7d")] =
      some (String.mk (literalRender "q".data "\x7b\x7bq\x7d\x7d".data
        "\x7b\x7bq\x7d\x7d".data)) :=
  C3_no_rescan_within_pass.1 "\x7b\x7bq\x7d\x7d" "q" "\x7b\x7bq\x7d\x7d"
    (by decide) (by decide)

end AIFW
